import Mathlib

/-!
Verification of the evidence-manifest extraction and consistency-checking
engine (`make_evidence_manifest.py`) against its natural-language
specification.

The Python source is shallowly embedded below.  Conventions of the
embedding:

* Python `str` values are Lean `String`; character-level scanning works on
  `String.data` (a `List Char`).  Python's `str.lower` / `str.strip` are
  modelled over ASCII (`Char.toLower`, the six ASCII whitespace
  characters); non-ASCII case folding and Unicode spaces are outside the
  model, as are float JSON leaves (a Python `str(float)` always contains
  one of `.`, `+`, `-`, so it can never produce an all-alphanumeric token
  starting with the recognized job-id prefixes).
* Parsed JSON documents are the inductive `JValue`; a Python `dict` is an
  association list with distinct keys, looked up front-to-back
  (`dictGet`).  Python `bool` is a subclass of `int`; where the source
  tests `isinstance(v, int)` the embedding therefore also accepts
  `JValue.bool`, reading `True` as `1` and `False` as `0`.
* File hashing (`sha256_file`), `stat`, and `git rev-parse` are external
  collaborators per the spec; the digest, byte size and revision enter the
  model as plain inputs.  `json.loads` is likewise a collaborator: a
  `FileInput` carries the parse outcome (`none` = the bytes failed to
  parse) that `main` would have obtained for a `.json` file.
* `re.findall(r"\b[a-z0-9]{10,40}\b", text)` over already-lowercased text
  is modelled by splitting the text into maximal runs of word characters
  (alphanumeric or underscore) and keeping the runs that consist purely of
  `[a-z0-9]` and have length 10 to 40: a run longer than 40, or one glued
  to an underscore, has no word boundary and is rejected by the regex too.
* `sorted(...)` (Python, stable comparison sort) is modelled with
  `List.insertionSort` over an executable lexicographic code-point order,
  the same order Python uses on `str`.
-/

set_option maxRecDepth 4096

/-! ## Generic string helpers (Python str.lower / strip / startswith / in) -/

/-- Python ASCII whitespace as used by `str.strip()`. -/
def pyIsSpace (c : Char) : Bool :=
  c = ' ' || c = '\t' || c = '\n' || c = '\x0d' || c = '\x0b' || c = '\x0c'

/-- Left-trim, Python `str.lstrip()`. -/
def trimLeftL (cs : List Char) : List Char := cs.dropWhile pyIsSpace

/-- Right-trim, Python `str.rstrip()`. -/
def trimRightL (cs : List Char) : List Char :=
  (cs.reverse.dropWhile pyIsSpace).reverse

/-- Python `str.strip()`. -/
def stripL (cs : List Char) : List Char := trimRightL (trimLeftL cs)

/-- Python `str.strip()` on `String`. -/
def stripS (s : String) : String := ⟨stripL s.data⟩

/-- Python `str.lower()` (ASCII). -/
def strLower (s : String) : String := ⟨s.data.map Char.toLower⟩

/-- List version of Python `str.startswith`. -/
def startsWithL : List Char → List Char → Bool
  | [], _ => true
  | _ :: _, [] => false
  | a :: as, b :: bs => if a = b then startsWithL as bs else false

/-- Python `s.startswith(p)`. -/
def strStartsWith (p s : String) : Bool := startsWithL p.data s.data

/-- Python `s.endswith(suf)`. -/
def strEndsWith (suf s : String) : Bool :=
  startsWithL suf.data.reverse s.data.reverse

/-- Substring containment, Python `needle in hay`. -/
def containsSubL (needle : List Char) : List Char → Bool
  | [] => startsWithL needle []
  | c :: cs => startsWithL needle (c :: cs) || containsSubL needle cs

/-- Python `needle in hay` on `String`. -/
def strContainsSub (needle hay : String) : Bool :=
  containsSubL needle.data hay.data

/-! ## The job-identifier token grammar
`JOB_ID_TOKEN_RE = re.compile(r"\b[a-z0-9]{10,40}\b", re.IGNORECASE)` and
`LIKELY_JOB_PREFIX = ("d0", "c0")`. -/

/-- Word characters for the regex word boundary: `[A-Za-z0-9_]`. -/
def isWordChar (c : Char) : Bool := c.isAlphanum || c = '_'

/-- Characters the token class `[a-z0-9]` matches in the lowercased text. -/
def isTokenChar (c : Char) : Bool :=
  ('a' ≤ c && c ≤ 'z') || ('0' ≤ c && c ≤ '9')

/-- Split a character list into its maximal runs of word characters.
`acc` holds the (reversed) run currently being read. -/
def wordRunsAux : List Char → List Char → List (List Char)
  | [], acc => if acc.isEmpty then [] else [acc.reverse]
  | c :: cs, acc =>
    if isWordChar c then wordRunsAux cs (c :: acc)
    else if acc.isEmpty then wordRunsAux cs []
    else acc.reverse :: wordRunsAux cs []

/-- Maximal word-character runs of a text. -/
def wordRuns (cs : List Char) : List (List Char) := wordRunsAux cs []

/-- `JOB_ID_TOKEN_RE.findall(text)` on lowercased text: the maximal word
runs made of `[a-z0-9]` only, of length 10 to 40. -/
def findTokens (cs : List Char) : List (List Char) :=
  (wordRuns cs).filter fun r =>
    r.all isTokenChar && decide (10 ≤ r.length) && decide (r.length ≤ 40)

/-- The configured recognized starts of job identifiers,
`LIKELY_JOB_PREFIX = ("d0", "c0")`. -/
def likelyJobStart : List String := ["d0", "c0"]

/-- Python `x.startswith(LIKELY_JOB_PREFIX)` (tuple = any alternative). -/
def hasJobStart (s : String) : Bool :=
  likelyJobStart.any fun p => strStartsWith p s

/-- Order-preserving de-duplication (the `seen` set plus `out` list idiom
used twice in the source). -/
def dedupAux : List String → List String → List String
  | [], _ => []
  | x :: xs, seen =>
    if x ∈ seen then dedupAux xs seen else x :: dedupAux xs (x :: seen)

/-- De-duplicate keeping first occurrences. -/
def dedupL (xs : List String) : List String := dedupAux xs []

/-- `extract_job_ids_from_text` (source lines 109-118): lowercase the
text, find candidate tokens, keep those with a recognized start and
length at least 12, de-duplicate in order. -/
def extract_job_ids_from_text (text : String) : List String :=
  let lowered := text.data.map Char.toLower
  let cands := (findTokens lowered).map fun t => (⟨t⟩ : String)
  let ids := cands.filter fun c => hasJobStart c && decide (12 ≤ c.length)
  dedupL ids

/-! ## JSON documents -/

/-- A parsed JSON value as produced by `json.loads` (floats omitted, see
the header note). -/
inductive JValue where
  | null : JValue
  | bool : Bool → JValue
  | int : Int → JValue
  | str : String → JValue
  | arr : List JValue → JValue
  | obj : List (String × JValue) → JValue

/-- A parsed top-level document, a Python `dict`. -/
abbrev Doc := List (String × JValue)

/-- Python `dict.get` (keys are unique in a parsed JSON object; first
match). -/
def dictGet (kvs : Doc) (k : String) : Option JValue :=
  match kvs with
  | [] => none
  | (k', v) :: rest => if k' = k then some v else dictGet rest k

/-- `deep_get(obj, path)` (source lines 96-102): descend through nested
dicts; a missing key or a non-dict on the way gives `None`. -/
def deepGet (v : JValue) : List String → Option JValue
  | [] => some v
  | k :: ks =>
    match v with
    | .obj kvs =>
      match dictGet kvs k with
      | some v' => deepGet v' ks
      | none => none
    | _ => none

mutual
/-- The texts contributed by `walk_all_values` (source lines 73-83) that
`extract_job_ids` joins: dict keys, string leaves verbatim, int (and
bool, a Python int) leaves via `str`.  `None` contributes nothing. -/
def leafTexts : JValue → List String
  | .null => []
  | .bool b => [if b then "True" else "False"]
  | .int n => [toString n]
  | .str s => [s]
  | .arr vs => leafTextsArr vs
  | .obj kvs => leafTextsObj kvs

/-- `walk_all_values` over a JSON array. -/
def leafTextsArr : List JValue → List String
  | [] => []
  | v :: vs => leafTexts v ++ leafTextsArr vs

/-- `walk_all_values` over a JSON object: each key is yielded before its
subtree. -/
def leafTextsObj : List (String × JValue) → List String
  | [] => []
  | (k, v) :: kvs => k :: (leafTexts v ++ leafTextsObj kvs)
end

mutual
/-- The strings yielded by `walk_all_values` (keys and string leaves, in
walk order); used by the backend scan which tests `isinstance(v, str)`. -/
def walkStrs : JValue → List String
  | .null => []
  | .bool _ => []
  | .int _ => []
  | .str s => [s]
  | .arr vs => walkStrsArr vs
  | .obj kvs => walkStrsObj kvs

/-- String walk over a JSON array. -/
def walkStrsArr : List JValue → List String
  | [] => []
  | v :: vs => walkStrs v ++ walkStrsArr vs

/-- String walk over a JSON object. -/
def walkStrsObj : List (String × JValue) → List String
  | [] => []
  | (k, v) :: kvs => k :: (walkStrs v ++ walkStrsObj kvs)
end

/-- `"\n".join(ensure_text(v) for v in walk_all_values(obj) if
isinstance(v, (str, int, float)))` (source line 150). -/
def allText (d : Doc) : String :=
  String.intercalate "\n" (leafTexts (.obj d))

/-! ## `extract_job_ids` (source lines 121-168) -/

/-- Step 1 of `extract_job_ids`: common direct keys.  The three scalar
keys contribute their string values, then the four list keys contribute
the string elements of their list values. -/
def directKeyIds (d : Doc) : List String :=
  (["job_id", "jobId", "runtime_job_id"].filterMap fun k =>
    match dictGet d k with
    | some (.str v) => some v
    | _ => none)
  ++ (["job_ids", "jobIds", "jobs", "ibm_job_ids"].flatMap fun k =>
    match dictGet d k with
    | some (.arr xs) => xs.filterMap fun x =>
        match x with
        | .str s => some s
        | _ => none
    | _ => [])

/-- The fixed nested key paths of step 2 of `extract_job_ids`. -/
def nestedIdPaths : List (List String) :=
  [["execution_metadata", "job_id"], ["execution_metadata", "jobId"],
   ["proof", "execution_metadata", "job_id"],
   ["proof", "execution_metadata", "jobId"],
   ["ibm", "job_id"], ["ibm", "jobId"]]

/-- Step 2 of `extract_job_ids`: nested lookups keeping string hits. -/
def nestedIds (d : Doc) : List String :=
  nestedIdPaths.filterMap fun p =>
    match deepGet (.obj d) p with
    | some (.str v) => some v
    | _ => none

/-- The final `normalize + dedupe` loop of `extract_job_ids` (source
lines 154-167): strip, drop empties, lowercase, keep only candidates with
a recognized start, de-duplicate on the lowercased form, emit the
lowercased form. -/
def normalizeIds : List String → List String → List String
  | [], _ => []
  | x :: xs, seen =>
    let x' := stripS x
    if x' = "" then normalizeIds xs seen
    else
      let xlow := strLower x'
      if !hasJobStart xlow then normalizeIds xs seen
      else if xlow ∈ seen then normalizeIds xs seen
      else xlow :: normalizeIds xs (xlow :: seen)

/-- `extract_job_ids(obj)` (source lines 121-168). -/
def extract_job_ids (d : Doc) : List String :=
  normalizeIds
    (directKeyIds d ++ nestedIds d ++ extract_job_ids_from_text (allText d))
    []

example : extract_job_ids [("job_id", JValue.str "d0abc")] = ["d0abc"] := by
  decide

example :
    extract_job_ids_from_text "see job D0A1B2C3D4E5 and c0c0c0c0c0 here" =
      ["d0a1b2c3d4e5"] := by decide

/-! ## The other field extractors (source lines 171-242) -/

/-- The `isinstance(v, str) and v.strip()` then `return v.strip()` idiom
shared by the backend, timestamp and group-id extractors. -/
def strOptAt (v : Option JValue) : Option String :=
  match v with
  | some (.str s) => if stripS s = "" then none else some (stripS s)
  | _ => none

/-- First `some` produced along a list (the `for ...: return` idiom). -/
def firstSome? : List α → (α → Option β) → Option β
  | [], _ => none
  | a :: as, f =>
    match f a with
    | some b => some b
    | none => firstSome? as f

/-- Candidate locations of `extract_backend` (source lines 173-180). -/
def backendPaths : List (List String) :=
  [["backend"], ["hardware", "backend"], ["execution_metadata", "backend"],
   ["proof", "execution_metadata", "backend"], ["ibm", "backend"],
   ["summary", "backend"]]

/-- `extract_backend(obj)` (source lines 171-190): first non-blank string
at a candidate location (stripped), else the first walked string starting
with `ibm_` (returned verbatim). -/
def extract_backend (d : Doc) : Option String :=
  match firstSome? backendPaths (fun p => strOptAt (deepGet (.obj d) p)) with
  | some s => some s
  | none =>
    firstSome? (walkStrs (.obj d)) fun v =>
      if strStartsWith "ibm_" v then some v else none

/-- Python `str.isdigit` (ASCII): non-empty and all decimal digits. -/
def pyIsDigit (s : String) : Bool :=
  !s.data.isEmpty && s.data.all fun c => '0' ≤ c && c ≤ '9'

/-- Python `int(s)` for a digit string. -/
def digitsToNat (cs : List Char) : Nat :=
  cs.foldl (fun acc c => acc * 10 + (c.toNat - '0'.toNat)) 0

/-- The `isinstance(v, int) and v > 0` / `isinstance(v, str) and
v.isdigit()` pair of checks of `extract_shots` at one candidate value
(source lines 203-206).  A Python `bool` is an `int` (`True` compares as
`1`, `False` as `0`). -/
def shotsAt : JValue → Option Int
  | .int n => if 0 < n then some n else none
  | .bool b => if b then some 1 else none
  | .str s => if pyIsDigit s then some (digitsToNat s.data) else none
  | _ => none

/-- Candidate locations of `extract_shots` (source lines 194-200). -/
def shotsPaths : List (List String) :=
  [["shots"], ["summary", "shots"], ["execution_metadata", "shots"],
   ["proof", "execution_metadata", "shots"], ["ibm", "shots"]]

/-- The `isinstance(vv, int) and vv > 0` check of the sub-run fallback
(source lines 214-216); note there is no digit-string branch here. -/
def shotsAtInt : Option JValue → Option Int
  | some (.int n) => if 0 < n then some n else none
  | some (.bool b) => if b then some 1 else none
  | _ => none

/-- The sub-run fallback of `extract_shots` (source lines 209-216):
recurse one level into each list item under the collection keys. -/
def subRunShots (d : Doc) : Option Int :=
  firstSome? ["runs", "results", "jobs", "executions"] fun k =>
    match dictGet d k with
    | some (.arr items) =>
      firstSome? items fun item => shotsAtInt (deepGet item ["shots"])
    | _ => none

/-- `extract_shots(obj)` (source lines 193-217). -/
def extract_shots (d : Doc) : Option Int :=
  match firstSome? shotsPaths (fun p => (deepGet (.obj d) p).bind shotsAt) with
  | some n => some n
  | none => subRunShots d

/-- `extract_timestamp(obj)` (source lines 220-234): flat keys first,
then nested paths, each accepting a non-blank string, stripped. -/
def extract_timestamp (d : Doc) : Option String :=
  match
    firstSome? ["timestamp", "created_utc", "created", "time", "date"]
      (fun k => strOptAt (dictGet d k)) with
  | some s => some s
  | none =>
    firstSome?
      [["summary", "timestamp"], ["metadata", "timestamp"],
       ["execution_metadata", "timestamp"]]
      fun p => strOptAt (deepGet (.obj d) p)

/-- `detect_evidence_group_id(obj, fallback)` (source lines 237-242). -/
def detect_evidence_group_id (d : Doc) (fallback : String) : String :=
  match strOptAt (dictGet d "evidence_group_id") with
  | some s => s
  | none => fallback

/-! ## Python `pathlib` name / stem / suffix -/

/-- The reversed final path component (`Path(p).name`, reversed). -/
def revName (cs : List Char) : List Char :=
  cs.reverse.takeWhile fun c => !(c = '/')

/-- Number of characters after the last dot of the name (full length of
the name when it has no dot). -/
def suffixTailLen (r : List Char) : Nat :=
  (r.takeWhile fun c => !(c = '.')).length

/-- `Path(p).suffix`: Python takes `name[i:]` for `i = name.rfind('.')`
when `0 < i < len(name) - 1`, else the empty suffix. -/
def pathSuffix (p : String) : String :=
  let r := revName p.data
  let k := suffixTailLen r
  if 1 ≤ k ∧ k + 2 ≤ r.length then ⟨(r.take (k + 1)).reverse⟩ else ""

/-- `Path(p).stem`: the name without its suffix. -/
def pathStem (p : String) : String :=
  let r := revName p.data
  let k := suffixTailLen r
  if 1 ≤ k ∧ k + 2 ≤ r.length then ⟨(r.drop (k + 1)).reverse⟩
  else ⟨r.reverse⟩

example : pathSuffix "docs/run.v2.JSON" = ".JSON" := by decide
example : pathStem "docs/run.v2.JSON" = "run.v2" := by decide
example : pathSuffix "docs/.json" = "" := by decide
example : pathStem "a/b/notes.md" = "notes" := by decide

/-! ## Evidence records (`build_entry`, source lines 249-277) -/

/-- One evidence record.  A missing optional dict key is `none`; the
serializer and the consistency checker treat `none` exactly as the
Python code treats an absent key. -/
structure Entry where
  file : String
  sha256 : String
  size_bytes : Nat
  git_commit : String
  evidence_group_id : String
  backend : Option String := none
  timestamp : Option String := none
  shots : Option Int := none
  job_ids : Option (List String) := none
deriving DecidableEq

/-- `build_entry(file_path, base_dir, obj, git_commit)`: digest and byte
size are computed by the collaborators `sha256_file` / `stat` and enter
as inputs; `rel` is the path relative to the base directory.  `obj` is
`None` when parsing failed or was not attempted; Python truthiness makes
the empty dict take the no-metadata branch as well. -/
def build_entry (rel : String) (digest : String) (size : Nat)
    (git : String) (obj : Option Doc) : Entry :=
  let stem := pathStem rel
  match obj with
  | none =>
    { file := rel, sha256 := digest, size_bytes := size, git_commit := git,
      evidence_group_id := stem }
  | some d =>
    if d.isEmpty then
      { file := rel, sha256 := digest, size_bytes := size, git_commit := git,
        evidence_group_id := stem }
    else
      let jids := extract_job_ids d
      { file := rel, sha256 := digest, size_bytes := size, git_commit := git,
        evidence_group_id := detect_evidence_group_id d stem,
        backend := (extract_backend d).filter fun b => !(b = ""),
        timestamp := (extract_timestamp d).filter fun t => !(t = ""),
        shots := extract_shots d,
        job_ids := if jids.isEmpty then none else some jids }

/-! ## The assembly pipeline (`main`, source lines 395-420) -/

/-- One enumerated input file.  `text` is the decoded file content (used
by the consistency checker for markdown files); `parsed` is the outcome
`json.loads` would give on those bytes (`none` = parse error), consulted
by the pipeline only for `.json` files. -/
structure FileInput where
  path : String
  digest : String
  size : Nat
  text : String
  parsed : Option JValue

/-- Lines 403-408 of `main`: parse only `.json` files; wrap a non-dict
top level under the synthetic `_root` key; a parse failure leaves `None`. -/
def parsedDoc (f : FileInput) : Option Doc :=
  if strLower (pathSuffix f.path) = ".json" then
    match f.parsed with
    | none => none
    | some (.obj kvs) => some kvs
    | some v => some [("_root", v)]
  else none

/-- Build the evidence record of one enumerated file. -/
def processFile (git : String) (f : FileInput) : Entry :=
  build_entry f.path f.digest f.size git (parsedDoc f)

/-- Executable lexicographic code-point order on char lists, the order
Python uses to sort path strings. -/
def leChars : List Char → List Char → Bool
  | [], _ => true
  | _ :: _, [] => false
  | a :: as, b :: bs =>
    if a < b then true else if b < a then false else leChars as bs

/-- Sorting record inputs by path (`candidates = sorted(...)`). -/
def sortFiles (files : List FileInput) : List FileInput :=
  List.insertionSort (fun f g => leChars f.path.data g.path.data = true) files

/-- Sorting a string list (`sorted(...)` in `write_warnings_md`). -/
def sortStrings (xs : List String) : List String :=
  List.insertionSort (fun a b => leChars a.data b.data = true) xs

/-- The sorted per-file record list of `main` (lines 397-411). -/
def assembleEntries (git : String) (files : List FileInput) : List Entry :=
  (sortFiles files).map (processFile git)

/-- The manifest aggregate (lines 413-418). -/
structure Manifest where
  schema_version : Nat := 2
  generated_utc : String
  git_commit : String
  evidence_sets : List Entry
deriving DecidableEq

/-- `main`'s manifest assembly for a fixed revision string and a fixed
generation timestamp. -/
def assembleManifest (git ts : String) (files : List FileInput) : Manifest :=
  { generated_utc := ts, git_commit := git,
    evidence_sets := assembleEntries git files }

/-! ## The consistency checker (`write_warnings_md`, source lines 312-340)

The checker re-reads each markdown file's text from disk; in the model a
checker row pairs the evidence record with its file's text, exactly the
data the Python loop has in hand. -/

/-- The rows the checker iterates over when it runs right after assembly:
each record of the sorted manifest together with its file's text. -/
def checkerInput (git : String) (files : List FileInput) :
    List (Entry × String) :=
  (sortFiles files).map fun f => (processFile git f, f.text)

/-- `dashboard_job_ids` (source lines 317-328): ids text-scanned from
markdown files whose text contains the marker word `dashboard`
case-insensitively.  The Python `set` is modelled as a de-duplicated
list; membership is what the rest of the checker consumes. -/
def dashIds (rows : List (Entry × String)) : List String :=
  dedupL (rows.flatMap fun row =>
    if strEndsWith ".md" (strLower row.1.file)
        && strContainsSub "dashboard" (strLower row.2) then
      extract_job_ids_from_text row.2
    else [])

/-- `json_job_ids` (source lines 316, 330-331): the union over records of
`.json` files of their lower-cased job-identifier lists; a record without
the `job_ids` key contributes nothing. -/
def jsonIds (rows : List (Entry × String)) : List String :=
  dedupL (rows.flatMap fun row =>
    if strEndsWith ".json" (strLower row.1.file) then
      ((row.1.job_ids).getD []).map strLower
    else [])

/-- `missing_in_json` (source line 334): dashboard ids whose lowercase
form is in no structured record, sorted. -/
def missing_in_json (rows : List (Entry × String)) : List String :=
  sortStrings ((dashIds rows).filter fun jid =>
    !((jsonIds rows).contains (strLower jid)))

/-- `missing_backend` (source line 337). -/
def missing_backend (sets : List Entry) : List String :=
  sets.filterMap fun e =>
    if strEndsWith ".json" (strLower e.file) && e.backend = none then
      some e.file
    else none

/-- `missing_shots` (source line 338). -/
def missing_shots (sets : List Entry) : List String :=
  sets.filterMap fun e =>
    if strEndsWith ".json" (strLower e.file) && e.shots = none then
      some e.file
    else none

/-- `missing_timestamp` (source line 339). -/
def missing_timestamp (sets : List Entry) : List String :=
  sets.filterMap fun e =>
    if strEndsWith ".json" (strLower e.file) && e.timestamp = none then
      some e.file
    else none

/-- `missing_job_ids` (source line 340). -/
def missing_job_ids (sets : List Entry) : List String :=
  sets.filterMap fun e =>
    if strEndsWith ".json" (strLower e.file) && e.job_ids = none then
      some e.file
    else none

/-! ## Serialization (`json.dumps(manifest, indent=2, sort_keys=True)`)

A record serializes its present fields only, keys in sorted order; the
rendering below models that contract (whitespace and string escaping of
`json.dumps` are inessential detail for the determinism claim). -/

/-- Quote a JSON string (escaping elided). -/
def jquote (s : String) : String := "\"" ++ s ++ "\""

/-- Render an optional string field; an absent field emits nothing. -/
def optStrField (k : String) (v : Option String) : String :=
  match v with
  | none => ""
  | some s => jquote k ++ ": " ++ jquote s ++ ", "

/-- Serialize one evidence record, keys in sorted order, absent optional
fields omitted (never null placeholders). -/
def serializeEntry (e : Entry) : String :=
  "\x7b" ++ optStrField "backend" e.backend
    ++ jquote "evidence_group_id" ++ ": " ++ jquote e.evidence_group_id ++ ", "
    ++ jquote "file" ++ ": " ++ jquote e.file ++ ", "
    ++ jquote "git_commit" ++ ": " ++ jquote e.git_commit ++ ", "
    ++ (match e.job_ids with
        | none => ""
        | some ids =>
          jquote "job_ids" ++ ": ["
            ++ String.intercalate ", " (ids.map jquote) ++ "], ")
    ++ jquote "sha256" ++ ": " ++ jquote e.sha256 ++ ", "
    ++ (match e.shots with
        | none => ""
        | some n => jquote "shots" ++ ": " ++ toString n ++ ", ")
    ++ jquote "size_bytes" ++ ": " ++ toString e.size_bytes
    ++ (match e.timestamp with
        | none => ""
        | some t => ", " ++ jquote "timestamp" ++ ": " ++ jquote t)
    ++ "\x7d"

/-- Serialize the manifest, keys in sorted order, records in list order. -/
def serializeManifest (m : Manifest) : String :=
  "\x7b" ++ jquote "evidence_sets" ++ ": ["
    ++ String.intercalate ", " (m.evidence_sets.map serializeEntry) ++ "], "
    ++ jquote "generated_utc" ++ ": " ++ jquote m.generated_utc ++ ", "
    ++ jquote "git_commit" ++ ": " ++ jquote m.git_commit ++ ", "
    ++ jquote "schema_version" ++ ": " ++ toString m.schema_version
    ++ "\x7d"

/-! ## Supporting lemmas -/

theorem string_eq_empty_iff {s : String} : s = "" ↔ s.data = [] :=
  ⟨fun h => h ▸ rfl, fun h => String.ext h⟩

theorem strLower_eq_empty {s : String} (h : strLower s = "") : s = "" := by
  rw [string_eq_empty_iff] at h ⊢
  exact List.map_eq_nil_iff.mp h

theorem startsWithL_iff : ∀ {pre l : List Char},
    startsWithL pre l = true ↔ ∃ t, l = pre ++ t
  | [], l => by simp [startsWithL]
  | a :: as, [] => by
    constructor
    · intro h; exact absurd h (by simp [startsWithL])
    · rintro ⟨t, ht⟩; exact absurd ht.symm (by simp)
  | a :: as, b :: bs => by
    rw [startsWithL]
    by_cases hab : a = b
    · subst hab
      rw [if_pos rfl, startsWithL_iff]
      simp [List.cons_append]
    · rw [if_neg hab]
      constructor
      · intro h; exact absurd h (by simp)
      · rintro ⟨t, ht⟩
        rw [List.cons_append, List.cons.injEq] at ht
        exact absurd ht.1 fun h => hab h.symm

theorem mem_dedupAux (y : String) : ∀ (xs seen : List String),
    y ∈ dedupAux xs seen ↔ y ∈ xs ∧ y ∉ seen
  | [], seen => by simp [dedupAux]
  | x :: xs, seen => by
    rw [dedupAux]
    by_cases hx : x ∈ seen
    · rw [if_pos hx, mem_dedupAux y xs seen, List.mem_cons]
      constructor
      · rintro ⟨h1, h2⟩; exact ⟨Or.inr h1, h2⟩
      · rintro ⟨h1 | h1, h2⟩
        · exact absurd (h1 ▸ hx) h2
        · exact ⟨h1, h2⟩
    · rw [if_neg hx]
      simp only [List.mem_cons, mem_dedupAux y xs (x :: seen)]
      constructor
      · rintro (rfl | ⟨h1, h2⟩)
        · exact ⟨Or.inl rfl, hx⟩
        · exact ⟨Or.inr h1, fun hs => h2 (Or.inr hs)⟩
      · rintro ⟨h1, h2⟩
        rcases h1 with rfl | h1
        · exact Or.inl rfl
        · by_cases hyx : y = x
          · exact Or.inl hyx
          · exact Or.inr ⟨h1, fun hs => hs.elim (fun he => hyx he) h2⟩

theorem mem_dedupL {y : String} {xs : List String} : y ∈ dedupL xs ↔ y ∈ xs := by
  rw [dedupL, mem_dedupAux]; simp

theorem mem_normalizeIds (y : String) : ∀ (xs seen : List String),
    y ∈ normalizeIds xs seen →
    ∃ x ∈ xs, y = strLower (stripS x) ∧ stripS x ≠ "" ∧ hasJobStart y = true
  | [], _, h => absurd h (by simp [normalizeIds])
  | x :: xs, seen, h => by
    simp only [normalizeIds] at h
    split at h
    · obtain ⟨z, hz, hrest⟩ := mem_normalizeIds y xs seen h
      exact ⟨z, List.mem_cons_of_mem _ hz, hrest⟩
    · split at h
      · obtain ⟨z, hz, hrest⟩ := mem_normalizeIds y xs seen h
        exact ⟨z, List.mem_cons_of_mem _ hz, hrest⟩
      · split at h
        · obtain ⟨z, hz, hrest⟩ := mem_normalizeIds y xs _ h
          exact ⟨z, List.mem_cons_of_mem _ hz, hrest⟩
        · rcases List.mem_cons.mp h with rfl | hmem
          · next c1 c2 _ =>
              refine ⟨x, List.mem_cons_self _ _, rfl, c1, ?_⟩
              simpa using c2
          · obtain ⟨z, hz, hrest⟩ := mem_normalizeIds y xs _ hmem
            exact ⟨z, List.mem_cons_of_mem _ hz, hrest⟩

theorem firstSome?_eq_some {f : α → Option β} {b : β} :
    ∀ {l : List α}, firstSome? l f = some b → ∃ a ∈ l, f a = some b
  | [], h => absurd h (by simp [firstSome?])
  | a :: as, h => by
    rw [firstSome?] at h
    cases hfa : f a with
    | some c =>
      rw [hfa] at h
      exact ⟨a, List.mem_cons_self _ _, hfa.trans h⟩
    | none =>
      rw [hfa] at h
      obtain ⟨z, hz, hfz⟩ := firstSome?_eq_some h
      exact ⟨z, List.mem_cons_of_mem _ hz, hfz⟩

theorem strOptAt_eq_some {o : Option JValue} {s : String}
    (h : strOptAt o = some s) :
    ∃ v, o = some (JValue.str v) ∧ stripS v ≠ "" ∧ s = stripS v := by
  match o with
  | none => exact absurd h (by simp [strOptAt])
  | some .null | some (.bool _) | some (.int _) | some (.arr _)
  | some (.obj _) => exact absurd h (by simp [strOptAt])
  | some (.str v) =>
    rw [strOptAt] at h
    split at h
    · exact absurd h (by simp)
    · next hne => exact ⟨v, rfl, hne, (Option.some.injEq _ _ ▸ h : _ = _).symm⟩

theorem leChars_total : ∀ x y : List Char,
    leChars x y = true ∨ leChars y x = true
  | [], _ => Or.inl rfl
  | _ :: _, [] => Or.inr rfl
  | a :: as, b :: bs => by
    by_cases hab : a < b
    · left; simp [leChars, hab]
    · by_cases hba : b < a
      · right; simp [leChars, hba]
      · rcases leChars_total as bs with h | h
        · left; simp [leChars, hab, hba, h]
        · right; simp [leChars, hab, hba, h]

theorem leChars_antisymm : ∀ {x y : List Char},
    leChars x y = true → leChars y x = true → x = y
  | [], [], _, _ => rfl
  | [], _ :: _, _, h2 => absurd h2 (by simp [leChars])
  | _ :: _, [], h1, _ => absurd h1 (by simp [leChars])
  | a :: as, b :: bs, h1, h2 => by
    rw [leChars] at h1 h2
    by_cases hab : a < b
    · rw [if_neg (asymm hab), if_pos hab] at h2
      exact absurd h2 (by simp)
    · by_cases hba : b < a
      · rw [if_neg hab, if_pos hba] at h1
        exact absurd h1 (by simp)
      · rw [if_neg hab, if_neg hba] at h1
        rw [if_neg hba, if_neg hab] at h2
        have hc : a = b := le_antisymm (le_of_not_lt hba) (le_of_not_lt hab)
        rw [hc, leChars_antisymm h1 h2]

theorem leChars_trans : ∀ {x y z : List Char},
    leChars x y = true → leChars y z = true → leChars x z = true
  | [], _, _, _, _ => rfl
  | _ :: _, [], _, h1, _ => absurd h1 (by simp [leChars])
  | _ :: _, _ :: _, [], _, h2 => absurd h2 (by simp [leChars])
  | a :: as, b :: bs, c :: cs, h1, h2 => by
    rw [leChars] at h1 h2 ⊢
    by_cases hab : a < b
    · by_cases hbc : b < c
      · rw [if_pos (lt_trans hab hbc)]
      · have hbc' : b = c := by
          by_contra hne
          rw [if_neg hbc, if_pos (lt_of_le_of_ne (le_of_not_lt hbc)
            fun h => hne h.symm)] at h2
          exact absurd h2 (by simp)
        rw [if_pos (hbc' ▸ hab)]
    · have hab' : a = b := by
        by_contra hne
        rw [if_neg hab, if_pos (lt_of_le_of_ne (le_of_not_lt hab)
          fun h => hne h.symm)] at h1
        exact absurd h1 (by simp)
      subst hab'
      by_cases hac : a < c
      · rw [if_pos hac]
      · rw [if_neg hac]
        by_cases hca : c < a
        · rw [if_neg hac, if_pos hca] at h2
          exact absurd h2 (by simp)
        · rw [if_neg hca]
          rw [if_neg hac, if_neg hca] at h2
          rw [if_neg hab, if_neg hab] at h1
          exact leChars_trans h1 h2

theorem mem_sortStrings {y : String} {xs : List String} :
    y ∈ sortStrings xs ↔ y ∈ xs :=
  List.mem_insertionSort _

/-- Two sorted lists that are permutations of each other and whose sort
keys are duplicate-free are equal. -/
theorem sorted_keyed_eq {α : Type} (key : α → String) :
    ∀ (l1 l2 : List α), l1.Perm l2 →
      l1.Sorted (fun a b => leChars (key a).data (key b).data = true) →
      l2.Sorted (fun a b => leChars (key a).data (key b).data = true) →
      (l1.map key).Nodup → l1 = l2
  | [], l2, hp, _, _, _ => (hp.symm.eq_nil).symm
  | a :: t1, [], hp, _, _, _ => absurd (hp.eq_nil) (by simp)
  | a :: t1, b :: t2, hp, hs1, hs2, hn => by
    have hab : a = b := by
      by_contra hne
      have hbmem : b ∈ a :: t1 := hp.mem_iff.mpr (List.mem_cons_self b t2)
      have hamem : a ∈ b :: t2 := hp.mem_iff.mp (List.mem_cons_self a t1)
      have hbt1 : b ∈ t1 := by
        rcases List.mem_cons.mp hbmem with h | h
        · exact absurd h.symm hne
        · exact h
      have hat2 : a ∈ t2 := by
        rcases List.mem_cons.mp hamem with h | h
        · exact absurd h hne
        · exact h
      have h1 : leChars (key a).data (key b).data = true :=
        List.rel_of_sorted_cons hs1 b hbt1
      have h2 : leChars (key b).data (key a).data = true :=
        List.rel_of_sorted_cons hs2 a hat2
      have hk : key a = key b :=
        String.ext (leChars_antisymm h1 h2)
      have := (List.nodup_cons.mp hn).1
      exact this (hk ▸ List.mem_map_of_mem key hbt1)
    subst hab
    have ht : t1 = t2 :=
      sorted_keyed_eq key t1 t2 hp.cons_inv hs1.tail hs2.tail
        (List.nodup_cons.mp hn).2
    rw [ht]

/-! ## Claim C1 -/

/-- C1, counterexample: `extract_job_ids` applied to the document
`{"job_id": "d0abc"}` returns the identifier `d0abc` of length 5,
refuting the claim that every returned identifier has length 10-40 and at
least 12: a structured direct-key hit passes only the prefix part of the
final filter, not the length part. -/
theorem C1_counterexample :
    extract_job_ids [("job_id", JValue.str "d0abc")] = ["d0abc"] ∧
    ("d0abc" : String).length = 5 := by decide

/-- C1, amended: identifiers returned by the text-scan path
`extract_job_ids_from_text` are alphanumeric tokens of length 12-40 that
start with a recognized prefix; identifiers returned by
`extract_job_ids` are guaranteed only to be non-empty and to start with a
recognized prefix after case-folding — structured direct-key and
nested-key-path hits bypass the length and character-class restrictions
of the text scanner. -/
theorem C1_amended :
    (∀ (t y : String), y ∈ extract_job_ids_from_text t →
      y.data.all isTokenChar = true ∧ 12 ≤ y.length ∧ y.length ≤ 40 ∧
        hasJobStart y = true)
    ∧ (∀ (d : Doc) (y : String), y ∈ extract_job_ids d →
      y ≠ "" ∧ hasJobStart y = true) := by
  constructor
  · intro t y hy
    simp only [extract_job_ids_from_text] at hy
    rw [mem_dedupL, List.mem_filter] at hy
    obtain ⟨hy1, hy2⟩ := hy
    rw [List.mem_map] at hy1
    obtain ⟨r, hr, rfl⟩ := hy1
    simp only [findTokens, List.mem_filter] at hr
    obtain ⟨_, hr2⟩ := hr
    simp only [Bool.and_eq_true, decide_eq_true_eq] at hr2 hy2
    exact ⟨hr2.1.1, hy2.2, hr2.2, hy2.1⟩
  · intro d y hy
    obtain ⟨x, _, rfl, hne, hstart⟩ := mem_normalizeIds y _ [] hy
    refine ⟨fun h0 => hne (strLower_eq_empty h0), hstart⟩

/-- C1, witness for the amended theorem at a concrete text and document. -/
theorem C1_amended_witness :
    ("d0a1b2c3d4e5" ∈ extract_job_ids_from_text "from d0a1b2c3d4e5 run" ∧
      12 ≤ ("d0a1b2c3d4e5" : String).length ∧
      hasJobStart "d0a1b2c3d4e5" = true)
    ∧ ("d0abc" ∈ extract_job_ids [("job_id", JValue.str "d0abc")] ∧
      ("d0abc" : String) ≠ "" ∧ hasJobStart "d0abc" = true) := by
  constructor
  · refine ⟨by decide, ?_, ?_⟩
    · exact (C1_amended.1 "from d0a1b2c3d4e5 run" "d0a1b2c3d4e5"
        (by decide)).2.1
    · exact (C1_amended.1 "from d0a1b2c3d4e5 run" "d0a1b2c3d4e5"
        (by decide)).2.2.2
  · refine ⟨by decide, ?_⟩
    exact C1_amended.2 [("job_id", JValue.str "d0abc")] "d0abc" (by decide)

/-! ## Claim C2 -/

/-- C2, counterexample: a `.json` file whose top-level parsed value is a
list (wrapped under the synthetic `_root` key) can still carry extracted
metadata: the record for a file parsing to `["d0a1b2c3d4e5"]` has a
`job_ids` field, so the wrapped case does not omit all optional metadata
fields. -/
theorem C2_counterexample :
    (processFile "g"
      { path := "x.json", digest := "h", size := 3, text := "",
        parsed := some (.arr [.str "d0a1b2c3d4e5"]) }).job_ids
      = some ["d0a1b2c3d4e5"] := by decide

/-- C2, amended: a file whose bytes fail to parse yields a record with
exactly the digest, byte size, revision and file-stem grouping key and no
optional metadata fields; a non-mapping top level is wrapped under the
synthetic root key and goes through normal extraction (so it keeps the
required fields and the stem grouping key, but may carry metadata); the
builder is total, and manifest assembly produces one record per input
file, continuing past unparseable ones. -/
theorem C2_amended :
    (∀ (rel digest : String) (size : Nat) (git : String),
      build_entry rel digest size git none =
        { file := rel, sha256 := digest, size_bytes := size,
          git_commit := git, evidence_group_id := pathStem rel })
    ∧ (∀ (rel digest : String) (size : Nat) (git : String) (v : JValue),
      (build_entry rel digest size git (some [("_root", v)])).file = rel ∧
      (build_entry rel digest size git (some [("_root", v)])).sha256
        = digest ∧
      (build_entry rel digest size git (some [("_root", v)])).size_bytes
        = size ∧
      (build_entry rel digest size git (some [("_root", v)])).git_commit
        = git ∧
      (build_entry rel digest size git
        (some [("_root", v)])).evidence_group_id = pathStem rel)
    ∧ (∀ (git ts : String) (files : List FileInput),
      (assembleManifest git ts files).evidence_sets.length
        = files.length) := by
  refine ⟨fun rel digest size git => rfl,
    fun rel digest size git v => ⟨rfl, rfl, rfl, rfl, rfl⟩,
    fun git ts files => ?_⟩
  simp only [assembleManifest, assembleEntries, List.length_map]
  exact (List.perm_insertionSort _ files).length_eq

/-! ## Claim C3 -/

/-- C3: manifest assembly and serialization are deterministic functions
of the input file set: for a fixed revision and generation timestamp, two
enumerations of the same files (any permutation, paths distinct) produce
the same manifest and byte-identical serialized output, because the
assembler sorts the files by path before building records. -/
theorem C3_determinism (git ts : String) (l1 l2 : List FileInput)
    (hp : l1.Perm l2) (hn : (l1.map FileInput.path).Nodup) :
    assembleManifest git ts l1 = assembleManifest git ts l2 ∧
    serializeManifest (assembleManifest git ts l1)
      = serializeManifest (assembleManifest git ts l2) := by
  haveI htot : IsTotal FileInput
      (fun f g => leChars f.path.data g.path.data = true) :=
    ⟨fun a b => leChars_total _ _⟩
  haveI htr : IsTrans FileInput
      (fun f g => leChars f.path.data g.path.data = true) :=
    ⟨fun a b c h1 h2 => leChars_trans h1 h2⟩
  have hs : sortFiles l1 = sortFiles l2 := by
    apply sorted_keyed_eq FileInput.path
    · exact ((List.perm_insertionSort _ l1).trans hp).trans
        (List.perm_insertionSort _ l2).symm
    · exact List.sorted_insertionSort _ l1
    · exact List.sorted_insertionSort _ l2
    · exact ((List.perm_insertionSort _ l1).map FileInput.path).symm.nodup hn
  have hm : assembleManifest git ts l1 = assembleManifest git ts l2 := by
    simp only [assembleManifest, assembleEntries, hs]
  exact ⟨hm, congrArg serializeManifest hm⟩

/-- C3, witness: the determinism theorem applied to a two-file set
enumerated in both orders. -/
theorem C3_determinism_witness :
    assembleManifest "g" "t"
      [{ path := "a.json", digest := "d1", size := 1, text := "",
         parsed := none },
       { path := "b.md", digest := "d2", size := 2, text := "",
         parsed := none }]
    = assembleManifest "g" "t"
      [{ path := "b.md", digest := "d2", size := 2, text := "",
         parsed := none },
       { path := "a.json", digest := "d1", size := 1, text := "",
         parsed := none }] :=
  (C3_determinism "g" "t" _ _
    (List.Perm.swap
      { path := "b.md", digest := "d2", size := 2, text := "",
        parsed := none }
      { path := "a.json", digest := "d1", size := 1, text := "",
        parsed := none }
      [])
    (by decide)).1

theorem contains_iff_mem {xs : List String} {y : String} :
    xs.contains y = true ↔ y ∈ xs :=
  List.elem_iff

/-! ## Claim C4 -/

/-- C4: the Consistency Checker's mismatch list is exactly the set
difference between identifiers scanned from marker-word-bearing markdown
documents and the union of the job-identifier sets of all structured
records; and on the concrete scenario of one dashboard markdown
mentioning `d0a1b2c3d4e5` plus one structured record with an empty
job-identifier set the mismatch list is exactly `[d0a1b2c3d4e5]`. -/
theorem C4_mismatch_set_difference :
    (∀ (rows : List (Entry × String)) (jid : String),
      jid ∈ missing_in_json rows ↔
        jid ∈ dashIds rows ∧ strLower jid ∉ jsonIds rows)
    ∧ missing_in_json (checkerInput "g"
        [{ path := "dash.md", digest := "h1", size := 10,
           text := "IBM Quantum Dashboard job d0a1b2c3d4e5",
           parsed := none },
         { path := "run.json", digest := "h2", size := 20, text := "x",
           parsed := some (.obj [("job_ids", .arr [])]) }])
      = ["d0a1b2c3d4e5"] := by
  constructor
  · intro rows jid
    rw [missing_in_json, mem_sortStrings, List.mem_filter]
    constructor
    · rintro ⟨h1, h2⟩
      refine ⟨h1, fun hmem => ?_⟩
      rw [contains_iff_mem.mpr hmem] at h2
      exact absurd h2 (by simp)
    · rintro ⟨h1, h2⟩
      refine ⟨h1, ?_⟩
      cases hcb : (jsonIds rows).contains (strLower jid) with
      | false => rfl
      | true => exact absurd (contains_iff_mem.mp hcb) h2
  · decide

/-! ## Claim C5 -/

/-- C5: the shot-count extractor is claimed to return only positive
integers, and the code clearly intends that (the native-integer branch
and the sub-run fallback both test `v > 0`), but the digit-string branch
omits the positivity test: on `{"shots": "0"}` it returns `0`.  The
native integer `0` is rejected at the same location, and positive values
come through as expected. -/
theorem C5_failing_input_eval :
    extract_shots [("shots", JValue.str "0")] = some 0 ∧
    extract_shots [("shots", JValue.int 0)] = none ∧
    extract_shots [("shots", JValue.int 5)] = some 5 := by decide

/-! ## Claim C6 -/

/-- C6, counterexample: the timestamp extractor does not return the
candidate string verbatim: surrounding whitespace is stripped, and a
whitespace-only (non-empty) string is rejected rather than accepted. -/
theorem C6_counterexample :
    extract_timestamp [("timestamp", JValue.str "  2024-05-01  ")]
      = some "2024-05-01" ∧
    ("  2024-05-01  " : String) ≠ "2024-05-01" ∧
    extract_timestamp [("timestamp", JValue.str " ")] = none := by decide

/-- C6, amended: every value the timestamp extractor returns is the
whitespace-stripped form of a candidate string whose stripped form is
non-empty; any string with non-whitespace content is accepted (as its
stripped form) with no format validation, and a string that strips to
empty is skipped. -/
theorem C6_amended :
    (∀ (d : Doc) (s : String), extract_timestamp d = some s →
      ∃ v, s = stripS v ∧ stripS v ≠ "")
    ∧ (∀ v : String, stripS v ≠ "" →
      extract_timestamp [("timestamp", JValue.str v)] = some (stripS v))
    ∧ (∀ v : String, stripS v = "" →
      extract_timestamp [("timestamp", JValue.str v)] = none) := by
  refine ⟨?_, ?_, ?_⟩
  · intro d s hsome
    rw [extract_timestamp] at hsome
    cases hflat : firstSome?
        ["timestamp", "created_utc", "created", "time", "date"]
        (fun k => strOptAt (dictGet d k)) with
    | some t =>
      rw [hflat] at hsome
      have ht : t = s := by injection hsome
      subst ht
      obtain ⟨k, _, hk⟩ := firstSome?_eq_some hflat
      obtain ⟨v, _, hne, hv⟩ := strOptAt_eq_some hk
      exact ⟨v, hv, hne⟩
    | none =>
      rw [hflat] at hsome
      obtain ⟨p, _, hp⟩ := firstSome?_eq_some hsome
      obtain ⟨v, _, hne, hv⟩ := strOptAt_eq_some hp
      exact ⟨v, hv, hne⟩
  · intro v h
    simp [extract_timestamp, firstSome?, dictGet, strOptAt, deepGet, h]
  · intro v h
    simp [extract_timestamp, firstSome?, dictGet, strOptAt, deepGet, h]

/-- C6, witness for the amended theorem at a concrete document. -/
theorem C6_amended_witness :
    extract_timestamp [("timestamp", JValue.str " x ")]
      = some (stripS " x ") ∧
    extract_timestamp [("timestamp", JValue.str "\t\t")] = none := by
  constructor
  · exact C6_amended.2.1 " x " (by decide)
  · exact C6_amended.2.2 "\t\t" (by decide)

/-- Membership in one of the four missing-field lint lists, generically
in the linted field condition. -/
theorem mem_lint_iff (p : Entry → Prop) [DecidablePred p] (sets : List Entry)
    (f : String) :
    f ∈ (sets.filterMap fun e =>
      if strEndsWith ".json" (strLower e.file) && p e then some e.file
      else none) ↔
    ∃ e, e ∈ sets ∧ e.file = f ∧
      strEndsWith ".json" (strLower e.file) = true ∧ p e := by
  rw [List.mem_filterMap]
  constructor
  · rintro ⟨e, he, hif⟩
    by_cases hc : (strEndsWith ".json" (strLower e.file) && decide (p e)) = true
    · rw [if_pos hc] at hif
      have hf : e.file = f := by injection hif
      simp only [Bool.and_eq_true, decide_eq_true_eq] at hc
      exact ⟨e, he, hf, hc.1, hc.2⟩
    · rw [if_neg hc] at hif
      exact absurd hif (by simp)
  · rintro ⟨e, he, rfl, hj, hp⟩
    refine ⟨e, he, ?_⟩
    have hc : (strEndsWith ".json" (strLower e.file) && decide (p e)) = true := by
      simp only [Bool.and_eq_true, decide_eq_true_eq]
      exact ⟨hj, hp⟩
    rw [if_pos hc]

/-! ## Claim C7 -/

/-- C7: the record built from the empty document has none of the
backend, shots, timestamp or job-identifier fields (Python truthiness
sends the empty dict through the no-metadata branch), and any manifest
containing that record reports its file in all four missing-field lists
of the Consistency Checker (for a `.json` file name). -/
theorem C7_empty_doc_lint (rel digest : String) (size : Nat) (git : String)
    (sets : List Entry)
    (hjson : strEndsWith ".json" (strLower rel) = true)
    (hmem : build_entry rel digest size git (some []) ∈ sets) :
    ((build_entry rel digest size git (some [])).backend = none ∧
     (build_entry rel digest size git (some [])).shots = none ∧
     (build_entry rel digest size git (some [])).timestamp = none ∧
     (build_entry rel digest size git (some [])).job_ids = none) ∧
    (rel ∈ missing_backend sets ∧ rel ∈ missing_shots sets ∧
     rel ∈ missing_timestamp sets ∧ rel ∈ missing_job_ids sets) := by
  refine ⟨⟨rfl, rfl, rfl, rfl⟩, ?_, ?_, ?_, ?_⟩
  · exact (mem_lint_iff (fun e => e.backend = none) sets rel).mpr
      ⟨build_entry rel digest size git (some []), hmem, rfl, hjson, rfl⟩
  · exact (mem_lint_iff (fun e => e.shots = none) sets rel).mpr
      ⟨build_entry rel digest size git (some []), hmem, rfl, hjson, rfl⟩
  · exact (mem_lint_iff (fun e => e.timestamp = none) sets rel).mpr
      ⟨build_entry rel digest size git (some []), hmem, rfl, hjson, rfl⟩
  · exact (mem_lint_iff (fun e => e.job_ids = none) sets rel).mpr
      ⟨build_entry rel digest size git (some []), hmem, rfl, hjson, rfl⟩

/-- C7, witness: the empty-document record for `a.json` in a singleton
manifest. -/
theorem C7_empty_doc_lint_witness :
    "a.json" ∈ missing_backend [build_entry "a.json" "d" 1 "g" (some [])] ∧
    "a.json" ∈ missing_shots [build_entry "a.json" "d" 1 "g" (some [])] ∧
    "a.json" ∈ missing_timestamp [build_entry "a.json" "d" 1 "g" (some [])] ∧
    "a.json" ∈ missing_job_ids [build_entry "a.json" "d" 1 "g" (some [])] :=
  (C7_empty_doc_lint "a.json" "d" 1 "g"
    [build_entry "a.json" "d" 1 "g" (some [])] (by decide)
    (List.mem_singleton.mpr rfl)).2

/-! ## Claim C8 -/

/-- C8, counterexample: a declared `evidence_group_id` value is not used
as-is: a padded string is stripped before use, and a non-string declared
value is ignored in favour of the fallback. -/
theorem C8_counterexample :
    detect_evidence_group_id [("evidence_group_id", JValue.str "  g1  ")]
      "fallbk" = "g1" ∧
    ("g1" : String) ≠ "  g1  " ∧
    detect_evidence_group_id [("evidence_group_id", JValue.int 7)]
      "fallbk" = "fallbk" := by decide

theorem detect_group_id_str {d : Doc} {v : String} (fb : String)
    (hget : dictGet d "evidence_group_id" = some (JValue.str v))
    (hne : stripS v ≠ "") :
    detect_evidence_group_id d fb = stripS v := by
  rw [detect_evidence_group_id, hget]
  simp only [strOptAt, if_neg hne]

theorem detect_group_id_none {d : Doc} (fb : String)
    (hget : dictGet d "evidence_group_id" = none) :
    detect_evidence_group_id d fb = fb := by
  rw [detect_evidence_group_id, hget]
  simp only [strOptAt]

theorem detect_group_id_not_str {d : Doc} {v : JValue} (fb : String)
    (hget : dictGet d "evidence_group_id" = some v)
    (hns : ∀ s, v ≠ JValue.str s) :
    detect_evidence_group_id d fb = fb := by
  rw [detect_evidence_group_id, hget]
  cases v with
  | str s => exact absurd rfl (hns s)
  | null => rfl
  | bool b => rfl
  | int n => rfl
  | arr vs => rfl
  | obj kvs => rfl

theorem detect_group_id_blank {d : Doc} {v : String} (fb : String)
    (hget : dictGet d "evidence_group_id" = some (JValue.str v))
    (hb : stripS v = "") :
    detect_evidence_group_id d fb = fb := by
  rw [detect_evidence_group_id, hget]
  simp only [strOptAt, if_pos hb]

/-- C8, amended: the grouping key is total (never absent): a declared
`evidence_group_id` that is a string with non-whitespace content is used
after stripping; otherwise (no key, wrong type, or blank string) the
fallback — the file's base name without extension — is used, both for
unparsed files and for parsed documents without the key. -/
theorem C8_amended :
    (∀ (d : Doc) (v : String) (fb : String),
      dictGet d "evidence_group_id" = some (JValue.str v) → stripS v ≠ "" →
      detect_evidence_group_id d fb = stripS v)
    ∧ (∀ (d : Doc) (fb : String), dictGet d "evidence_group_id" = none →
      detect_evidence_group_id d fb = fb)
    ∧ (∀ (rel digest : String) (size : Nat) (git : String),
      (build_entry rel digest size git none).evidence_group_id
        = pathStem rel)
    ∧ (∀ (rel digest : String) (size : Nat) (git : String) (d : Doc),
      dictGet d "evidence_group_id" = none →
      (build_entry rel digest size git (some d)).evidence_group_id
        = pathStem rel)
    ∧ (∀ (d : Doc) (v : JValue) (fb : String),
      dictGet d "evidence_group_id" = some v → (∀ s, v ≠ JValue.str s) →
      detect_evidence_group_id d fb = fb)
    ∧ (∀ (d : Doc) (v : String) (fb : String),
      dictGet d "evidence_group_id" = some (JValue.str v) → stripS v = "" →
      detect_evidence_group_id d fb = fb) := by
  refine ⟨fun d v fb hget hne => detect_group_id_str fb hget hne,
    fun d fb hget => detect_group_id_none fb hget,
    fun rel digest size git => rfl,
    fun rel digest size git d hget => ?_,
    fun d v fb hget hns => detect_group_id_not_str fb hget hns,
    fun d v fb hget hb => detect_group_id_blank fb hget hb⟩
  cases d with
  | nil => rfl
  | cons kv rest =>
    exact detect_group_id_none (pathStem rel) hget

/-- C8, witness: the amended theorem at concrete documents — a padded
declared string, an absent key, a parsed document without the key, a
declared non-string value, and a declared blank string. -/
theorem C8_amended_witness :
    detect_evidence_group_id [("evidence_group_id", JValue.str " g2 ")]
      "fb" = stripS " g2 " ∧
    detect_evidence_group_id [("backend", JValue.str "x")] "fb" = "fb" ∧
    (build_entry "d/e.json" "h" 1 "g"
      (some [("backend", JValue.str "x")])).evidence_group_id
      = pathStem "d/e.json" ∧
    detect_evidence_group_id [("evidence_group_id", JValue.int 9)]
      "stemfb" = "stemfb" ∧
    detect_evidence_group_id [("evidence_group_id", JValue.str " \t ")]
      "stemfb" = "stemfb" := by
  refine ⟨?_, ?_, ?_, ?_, ?_⟩
  · exact C8_amended.1 _ " g2 " "fb" rfl (by decide)
  · exact C8_amended.2.1 _ "fb" rfl
  · exact C8_amended.2.2.2.1 "d/e.json" "h" 1 "g" _ rfl
  · exact C8_amended.2.2.2.2.1 _ (JValue.int 9) "stemfb" rfl
      fun s h => JValue.noConfusion h
  · exact C8_amended.2.2.2.2.2 _ " \t " "stemfb" rfl (by decide)

/-! ## Claim C9 -/

/-- C9: the missing-field lint classifies records as structured purely by
the `.json` file-name extension — a file name is in a lint list exactly
when some record of the manifest carries it, has the `.json` extension
after lowercasing, and lacks the linted field — and a record built with
no parsed document (parse failure) lacks all four fields, so a `.json`
record whose bytes failed to parse lands in all four lists exactly like a
parseable document without those fields. -/
theorem C9_extension_classification :
    (∀ (rel digest : String) (size : Nat) (git : String),
      (build_entry rel digest size git none).backend = none ∧
      (build_entry rel digest size git none).shots = none ∧
      (build_entry rel digest size git none).timestamp = none ∧
      (build_entry rel digest size git none).job_ids = none)
    ∧ (∀ (sets : List Entry) (f : String),
      (f ∈ missing_backend sets ↔ ∃ e, e ∈ sets ∧ e.file = f ∧
        strEndsWith ".json" (strLower e.file) = true ∧ e.backend = none)
      ∧ (f ∈ missing_shots sets ↔ ∃ e, e ∈ sets ∧ e.file = f ∧
        strEndsWith ".json" (strLower e.file) = true ∧ e.shots = none)
      ∧ (f ∈ missing_timestamp sets ↔ ∃ e, e ∈ sets ∧ e.file = f ∧
        strEndsWith ".json" (strLower e.file) = true ∧ e.timestamp = none)
      ∧ (f ∈ missing_job_ids sets ↔ ∃ e, e ∈ sets ∧ e.file = f ∧
        strEndsWith ".json" (strLower e.file) = true ∧ e.job_ids = none))
    ∧ (∀ (sets : List Entry) (rel digest : String) (size : Nat)
        (git : String),
      build_entry rel digest size git none ∈ sets →
      strEndsWith ".json" (strLower rel) = true →
      rel ∈ missing_backend sets ∧ rel ∈ missing_shots sets ∧
      rel ∈ missing_timestamp sets ∧ rel ∈ missing_job_ids sets) := by
  refine ⟨fun rel digest size git => ⟨rfl, rfl, rfl, rfl⟩,
    fun sets f => ⟨mem_lint_iff (fun e => e.backend = none) sets f,
      mem_lint_iff (fun e => e.shots = none) sets f,
      mem_lint_iff (fun e => e.timestamp = none) sets f,
      mem_lint_iff (fun e => e.job_ids = none) sets f⟩,
    fun sets rel digest size git hmem hjson =>
      ⟨(mem_lint_iff (fun e => e.backend = none) sets rel).mpr
        ⟨build_entry rel digest size git none, hmem, rfl, hjson, rfl⟩,
       (mem_lint_iff (fun e => e.shots = none) sets rel).mpr
        ⟨build_entry rel digest size git none, hmem, rfl, hjson, rfl⟩,
       (mem_lint_iff (fun e => e.timestamp = none) sets rel).mpr
        ⟨build_entry rel digest size git none, hmem, rfl, hjson, rfl⟩,
       (mem_lint_iff (fun e => e.job_ids = none) sets rel).mpr
        ⟨build_entry rel digest size git none, hmem, rfl, hjson, rfl⟩⟩⟩

/-- C9, witness: an unparseable `b.json` in a singleton manifest is in
all four missing-field lists. -/
theorem C9_extension_classification_witness :
    "b.json" ∈ missing_backend [build_entry "b.json" "d" 2 "g" none] ∧
    "b.json" ∈ missing_shots [build_entry "b.json" "d" 2 "g" none] ∧
    "b.json" ∈ missing_timestamp [build_entry "b.json" "d" 2 "g" none] ∧
    "b.json" ∈ missing_job_ids [build_entry "b.json" "d" 2 "g" none] :=
  C9_extension_classification.2.2 [build_entry "b.json" "d" 2 "g" none]
    "b.json" "d" 2 "g" (List.mem_singleton.mpr rfl) (by decide)

/-! ## Claim C10 -/

/-- A path ending in `.md` cannot have the (lowercased) pathlib suffix
`.json`: its suffix is `.md` or empty. -/
theorem md_suffix_ne_json {p : String} (h : strEndsWith ".md" p = true) :
    ¬ strLower (pathSuffix p) = ".json" := by
  obtain ⟨t, ht⟩ := startsWithL_iff.mp h
  have hmd : (".md" : String).data.reverse = ['d', 'm', '.'] := by decide
  rw [hmd] at ht
  have hr : revName p.data
      = 'd' :: 'm' :: '.' :: (t.takeWhile fun c => !(c = '/')) := by
    rw [revName, ht]
    simp
  have hk : suffixTailLen (revName p.data) = 2 := by
    rw [suffixTailLen, hr]
    simp
  have hps : pathSuffix p = "" ∨ pathSuffix p = ⟨['.', 'm', 'd']⟩ := by
    simp only [pathSuffix]
    rw [hk, hr]
    cases t.takeWhile fun c => !(c = '/') with
    | nil => left; simp
    | cons c cs => right; simp
  intro hjson
  rcases hps with h0 | h0 <;> rw [h0] at hjson <;> exact absurd hjson (by decide)

theorem parsedDoc_md_none {f : FileInput}
    (h : strEndsWith ".md" f.path = true) : parsedDoc f = none := by
  rw [parsedDoc, if_neg (md_suffix_ne_json h)]

theorem build_entry_file (rel digest : String) (size : Nat) (git : String) :
    ∀ obj : Option Doc, (build_entry rel digest size git obj).file = rel
  | none => rfl
  | some d => by
    rw [build_entry]
    split
    · rfl
    · rfl

/-- C10: a record built for a markdown file carries none of the optional
metadata fields (only `.json` files are parsed, and the builder extracts
metadata only from a parsed document), and every identifier in the
checker's structured-record id pool comes from the `job_ids` list of a
`.json`-named file's record — so an identifier mentioned only in
markdown files can never enter that pool and clear a mismatch flag. -/
theorem C10_md_records_bare :
    (∀ (git : String) (f : FileInput), strEndsWith ".md" f.path = true →
      (processFile git f).backend = none ∧
      (processFile git f).shots = none ∧
      (processFile git f).timestamp = none ∧
      (processFile git f).job_ids = none)
    ∧ (∀ (git : String) (files : List FileInput) (jid : String),
      jid ∈ jsonIds (checkerInput git files) →
      ∃ f, f ∈ files ∧ strEndsWith ".json" (strLower f.path) = true ∧
        ∃ l, (processFile git f).job_ids = some l ∧
          jid ∈ l.map strLower) := by
  constructor
  · intro git f h
    have hp := parsedDoc_md_none h
    simp only [processFile, hp]
    exact ⟨rfl, rfl, rfl, rfl⟩
  · intro git files jid hj
    rw [jsonIds, mem_dedupL, List.mem_flatMap] at hj
    obtain ⟨row, hrow, hin⟩ := hj
    rw [checkerInput, List.mem_map] at hrow
    obtain ⟨f, hf, rfl⟩ := hrow
    rw [sortFiles, List.mem_insertionSort] at hf
    simp only [] at hin
    split at hin
    · next hc =>
      rw [processFile, build_entry_file] at hc
      cases hjob : (processFile git f).job_ids with
      | none =>
        rw [hjob] at hin
        exact absurd hin (by simp)
      | some l =>
        rw [hjob] at hin
        simp only [Option.getD_some] at hin
        exact ⟨f, hf, hc, l, hjob, hin⟩
    · exact absurd hin (by simp)

/-- The markdown file used by the C10 witness. -/
def mdWitnessFile : FileInput :=
  { path := "n.md", digest := "h", size := 1, text := "notes",
    parsed := none }

/-- The structured file used by the C10 witness. -/
def jsonWitnessFile : FileInput :=
  { path := "r.json", digest := "h2", size := 2, text := "",
    parsed := some (.obj [("job_id", .str "d0a1b2c3d4e5")]) }

/-- C10, witness: a markdown record has no metadata, and a structured-id
pool hit traces back to a `.json` file's record. -/
theorem C10_md_records_bare_witness :
    (processFile "g" mdWitnessFile).job_ids = none
    ∧ ∃ f, f ∈ [jsonWitnessFile]
        ∧ strEndsWith ".json" (strLower f.path) = true
        ∧ ∃ l, (processFile "g" f).job_ids = some l ∧
            "d0a1b2c3d4e5" ∈ l.map strLower := by
  constructor
  · exact (C10_md_records_bare.1 "g" mdWitnessFile (by decide)).2.2.2
  · exact C10_md_records_bare.2 "g" [jsonWitnessFile] "d0a1b2c3d4e5"
      (by decide)
